import Mathlib

/-!
# Sales tracker core: a shallow embedding of src/app.js

This file embeds the data model, the time-window filter, the mutation
handlers and the persistence layer of the single-page sales tracker in
Lean 4, and proves (or refutes) the frozen claims about them.

Modelling conventions:
* JavaScript numbers are modelled as rationals (ℚ); timestamps are
  modelled as integers (milliseconds since the Unix epoch), identifying a
  stored ISO-8601 string with the instant it denotes.
* The local timezone is modelled with UTC offset 0, so "local midnight"
  of an instant `t` is `t` rounded down to a multiple of 86400000 ms.
* The module-level mutable state of app.js (`salesReps`, `currentFilter`,
  `customStartDate`, `customEndDate`) becomes the structure `AppState`,
  and each event handler becomes a state-passing function.
* `prompt` returning null (user cancelled) is an `Option.none` argument;
  the empty string value of an unset date input (falsy in JS) is also
  `Option.none`.
-/

namespace SalesTracker

/-- Milliseconds in one day. -/
def msPerDay : ℤ := 86400000

/-- Local midnight of the instant `t` (offset-0 model of
`setHours(0,0,0,0)` / `new Date(y, m, d)`): round down to a day. -/
def dayStart (t : ℤ) : ℤ := t - t.emod msPerDay

/-- End of the local day containing `t` (model of
`setHours(23,59,59,999)`). -/
def dayEnd (t : ℤ) : ℤ := dayStart t + (msPerDay - 1)

/-- Civil calendar date (year, month, day) of a count of days since
1970-01-01, by the standard era-based algorithm.  Used only to model
`new Date(now.getFullYear(), now.getMonth(), 1)`. -/
def civilFromDays (z : ℤ) : ℤ × ℤ × ℤ :=
  let z := z + 719468
  let era := z.fdiv 146097
  let doe := z - era * 146097
  let yoe := (doe - doe / 1460 + doe / 36524 - doe / 146096) / 365
  let y := yoe + era * 400
  let doy := doe - (365 * yoe + yoe / 4 - yoe / 100)
  let mp := (5 * doy + 2) / 153
  let d := doy - (153 * mp + 2) / 5 + 1
  let m := mp + (if mp < 10 then 3 else -9)
  (y + (if m ≤ 2 then 1 else 0), m, d)

/-- Days since 1970-01-01 of a civil calendar date, inverse direction of
`civilFromDays`. -/
def daysFromCivil (y m d : ℤ) : ℤ :=
  let y := y - (if m ≤ 2 then 1 else 0)
  let era := y.fdiv 400
  let yoe := y - era * 400
  let doy := (153 * (m + (if 2 < m then -3 else 9)) + 2) / 5 + d - 1
  let doe := yoe * 365 + yoe / 4 - yoe / 100 + doy
  era * 146097 + doe - 719468

/-- First instant of the current month (model of
`new Date(now.getFullYear(), now.getMonth(), 1)` at offset 0). -/
def monthStart (t : ℤ) : ℤ :=
  let c := civilFromDays (t.fdiv msPerDay)
  daysFromCivil c.1 c.2.1 1 * msPerDay

/-- One deal record: `{ date: <ISO timestamp>, amount: <number> }`,
with the timestamp as epoch milliseconds. -/
structure Deal where
  date : ℤ
  amount : ℚ
  deriving Repr, DecidableEq

/-- An in-memory sales representative in the current shape, as created
by `addRep` in app.js lines 84-90. -/
structure Rep where
  id : ℕ
  name : String
  deals : ℕ
  revenue : ℚ
  dealHistory : List Deal
  deriving Repr, DecidableEq

/-- The module-level mutable state of app.js: the rep list and the date
filter state (`currentFilter`, `customStartDate`, `customEndDate`). -/
structure AppState where
  salesReps : List Rep
  currentFilter : String
  customStartDate : Option ℤ
  customEndDate : Option ℤ
  deriving Repr, DecidableEq

/-- `filteredDeals.reduce((sum, deal) => sum + deal.amount, 0)`. -/
def sumAmounts (l : List Deal) : ℚ :=
  l.foldl (fun sum deal => sum + deal.amount) 0

/-- app.js `getFilteredDeals(rep)` (lines 138-170), with the ambient
globals `currentFilter` / `customStartDate` / `customEndDate` passed in
as `s` and the current time as `now`. -/
def getFilteredDeals (s : AppState) (now : ℤ) (rep : Rep) : List Deal :=
  if s.currentFilter = "all" then
    rep.dealHistory
  else if s.currentFilter = "today" then
    rep.dealHistory.filter (fun deal => dayStart now ≤ deal.date)
  else if s.currentFilter = "week" then
    rep.dealHistory.filter (fun deal => now - 7 * 24 * 60 * 60 * 1000 ≤ deal.date)
  else if s.currentFilter = "month" then
    rep.dealHistory.filter (fun deal => monthStart now ≤ deal.date)
  else if s.currentFilter = "custom" then
    match s.customStartDate, s.customEndDate with
    | some startDate, some endDate =>
        rep.dealHistory.filter (fun deal =>
          startDate ≤ deal.date ∧ deal.date ≤ dayEnd endDate)
    | _, _ => rep.dealHistory
  else
    rep.dealHistory

/-- Per-rep filtered statistics, app.js `getFilteredStats` (lines
172-178). -/
structure Stats where
  deals : ℕ
  revenue : ℚ
  deriving Repr, DecidableEq

/-- app.js `getFilteredStats(rep)`. -/
def getFilteredStats (s : AppState) (now : ℤ) (rep : Rep) : Stats :=
  { deals := (getFilteredDeals s now rep).length
    revenue := sumAmounts (getFilteredDeals s now rep) }

/-- Whitespace test used by the models of the JS string builtins. -/
def wsChar (c : Char) : Bool := c = ' ' ∨ c = '\t' ∨ c = '\n' ∨ c = '\r'

/-- Strip leading and trailing whitespace from a character list. -/
def trimChars (s : List Char) : List Char :=
  ((s.dropWhile wsChar).reverse.dropWhile wsChar).reverse

/-- Model of `String.prototype.trim`. -/
def jsTrim (s : String) : String := ⟨trimChars s.toList⟩

/-- ASCII lower-casing of one character. -/
def lowerChar (c : Char) : Char :=
  if 'A' ≤ c ∧ c ≤ 'Z' then Char.ofNat (c.toNat + 32) else c

/-- Model of `String.prototype.toLowerCase` (ASCII level). -/
def jsToLower (s : String) : String := ⟨s.toList.map lowerChar⟩

/-- The fresh representative pushed by `addRep` (app.js lines 84-90);
`Date.now()` is passed in as `newId`. -/
def newRep (newId : ℕ) (name : String) : Rep :=
  { id := newId, name := name, deals := 0, revenue := 0, dealHistory := [] }

/-- app.js `addRep` (lines 70-99): trim the input, reject the empty name
and case-insensitive duplicates, otherwise push a fresh rep. -/
def addRep (s : AppState) (input : String) (newId : ℕ) : AppState :=
  let name := jsTrim input
  if name = "" then s
  else if s.salesReps.any (fun rep => jsToLower rep.name = jsToLower name) then s
  else { s with salesReps := s.salesReps ++ [newRep newId name] }

/-- Digit run read as a natural number. -/
def digitsToNat (l : List Char) : ℕ :=
  l.foldl (fun a c => a * 10 + (c.toNat - 48)) 0

/-- The lexical shape of a parsed float: sign, integer digits,
fractional digits. -/
structure FloatLex where
  neg : Bool
  intPart : List Char
  fracPart : List Char
  deriving Repr, DecidableEq

/-- Lexing phase of the `parseFloat` model: optional leading
whitespace, optional sign, a decimal digit run with optional fractional
part; no digits at all (after the sign) is NaN, modelled as `none`.
Trailing garbage is ignored, as `parseFloat` parses the longest numeric
run at the front of the string. -/
def lexFloat (cs : List Char) : Option FloatLex :=
  let cs := cs.dropWhile wsChar
  let signed : Bool × List Char :=
    match cs with
    | '-' :: rest => (true, rest)
    | '+' :: rest => (false, rest)
    | _ => (false, cs)
  let intPart := signed.2.takeWhile Char.isDigit
  let rest := signed.2.dropWhile Char.isDigit
  let fracPart : List Char :=
    match rest with
    | '.' :: r => r.takeWhile Char.isDigit
    | _ => []
  if intPart.isEmpty ∧ fracPart.isEmpty then none
  else some ⟨signed.1, intPart, fracPart⟩

/-- Numeric value of a lexed float. -/
def floatVal (l : FloatLex) : ℚ :=
  (if l.neg then -1 else 1) *
    ((digitsToNat l.intPart : ℚ) + (digitsToNat l.fracPart : ℚ) / (10 : ℚ) ^ l.fracPart.length)

/-- Model of the JS builtin `parseFloat` on the prompt input, at the
level the tracker uses it (plain decimal literals; exponents and Infinity are
out of scope). -/
def parseFloatSimple (s : String) : Option ℚ :=
  (lexFloat s.toList).map floatVal

/-- app.js line 110: `const value = parseFloat(dealValue) || 0;` — the
`|| 0` replaces a falsy parse result (NaN or 0) by 0 and keeps every
other number, including negative ones. -/
def coerceDealValue (s : String) : ℚ :=
  match parseFloatSimple s with
  | none => 0
  | some v => if v = 0 then 0 else v

/-- The in-place mutation of the found rep in `addDeal` (app.js lines
112-117): bump the counters and append the new deal record. -/
def dealMut (rep : Rep) (value : ℚ) (now : ℤ) : Rep :=
  { rep with
      deals := rep.deals + 1
      revenue := rep.revenue + value
      dealHistory := rep.dealHistory ++ [{ date := now, amount := value }] }

/-- Effect of the in-place mutation in `addDeal` on the rep list:
`salesReps.find(r => r.id === id)` locates the first rep with the given
id and `dealMut` is applied to it; every other entry is untouched. -/
def addDealReps (reps : List Rep) (id : ℕ) (value : ℚ) (now : ℤ) : List Rep :=
  match reps with
  | [] => []
  | rep :: rest =>
      if rep.id = id then dealMut rep value now :: rest
      else rep :: addDealReps rest id value now

/-- app.js `addDeal(id)` (lines 101-124).  The `prompt` result is the
`promptResult` argument (`none` = user cancelled, a no-op); a missing
rep id is a no-op. -/
def addDeal (s : AppState) (id : ℕ) (promptResult : Option String) (now : ℤ) : AppState :=
  if s.salesReps.any (fun rep => rep.id = id) then
    match promptResult with
    | none => s
    | some dealValue =>
        { s with salesReps := addDealReps s.salesReps id (coerceDealValue dealValue) now }
  else s

/-- app.js lines 330-339, the `change` handler of the filter dropdown:
`currentFilter = e.target.value;` unconditionally, before any check.
(The rest of the handler only toggles the visibility of the
custom-range inputs and re-renders.) -/
def dateFilterChange (s : AppState) (v : String) : AppState :=
  { s with currentFilter := v }

/-- app.js lines 341-351, the `applyDateFilter` click handler: both
globals are assigned from the inputs before the missing-date check, and
the check only gates the re-render (`applyDateFilter()`), not the
assignment.  An empty date input (falsy) is `none`. -/
def applyDateFilterClick (s : AppState) (startVal endVal : Option ℤ) : AppState :=
  { s with customStartDate := startVal, customEndDate := endVal }

/-- app.js lines 197-208, the top-performer reduction inside
`updateAnalytics`: `salesReps.reduce((top, rep) => ...)` with no initial
value, keeping the incumbent on ties; the empty list renders a dash,
modelled as `none`. -/
def topPerformer (s : AppState) (now : ℤ) : Option Rep :=
  match s.salesReps with
  | [] => none
  | first :: rest =>
      some (rest.foldl
        (fun top rep =>
          if (getFilteredStats s now top).revenue < (getFilteredStats s now rep).revenue
          then rep else top)
        first)

/-- app.js lines 225-238, the deals-today counter inside
`updateAnalytics`: iterate over the *unfiltered* `dealHistory` of every
rep and count the deals whose day (after `setHours(0,0,0,0)`) equals the
day of `now`. -/
def dealsToday (s : AppState) (now : ℤ) : ℕ :=
  s.salesReps.foldl
    (fun acc rep =>
      rep.dealHistory.foldl
        (fun acc2 deal => if dayStart deal.date = dayStart now then acc2 + 1 else acc2)
        acc)
    0

/-- A representative entry as it comes out of `JSON.parse`, before
migration: the `revenue` and `dealHistory` fields may be absent (the
legacy shape), modelled with `Option`. -/
structure RawRep where
  id : ℕ
  name : String
  deals : ℚ
  revenue : Option ℚ
  dealHistory : Option (List Deal)
  deriving Repr, DecidableEq

/-- The per-entry migration in the load path (app.js lines 35-44):
an entry without a `dealHistory` field (falsy) gets `revenue: 0` and
`dealHistory: []` via object spread, every other field — including the
`deals` count — kept as-is; an entry with a `dealHistory` field is
returned unchanged. -/
def migrateRep (rep : RawRep) : RawRep :=
  if rep.dealHistory.isNone then
    { rep with revenue := some 0, dealHistory := some [] }
  else rep

/-- Embedding of a current-shape rep into the parsed shape: all fields
present.  JS is unityped; `Rep` and `RawRep` are the same runtime
objects, `RawRep` merely allows the legacy shape too. -/
def embedRep (rep : Rep) : RawRep :=
  { id := rep.id, name := rep.name, deals := (rep.deals : ℚ)
    revenue := some rep.revenue, dealHistory := some rep.dealHistory }

/-- Structured JSON values, the common picture of `JSON.stringify` /
`JSON.parse`: the string blob in localStorage is identified with the
JSON tree it spells.  Numbers are rationals; an ISO timestamp string is
identified with the epoch milliseconds it denotes. -/
inductive Json where
  | null : Json
  | num : ℚ → Json
  | str : String → Json
  | arr : List Json → Json
  | obj : List (String × Json) → Json
  deriving Repr

/-- Serialization of one deal record, `{date, amount}`. -/
def encodeDeal (d : Deal) : Json :=
  Json.obj [("date", Json.num (d.date : ℚ)), ("amount", Json.num d.amount)]

/-- Serialization of one current-shape rep, field order as created by
`addRep`. -/
def encodeRep (rep : Rep) : Json :=
  Json.obj
    [ ("id", Json.num (rep.id : ℚ))
    , ("name", Json.str rep.name)
    , ("deals", Json.num (rep.deals : ℚ))
    , ("revenue", Json.num rep.revenue)
    , ("dealHistory", Json.arr (rep.dealHistory.map encodeDeal)) ]

/-- app.js `saveData` (lines 314-327): `JSON.stringify(salesReps)`
written under the fixed key, modelled as the JSON tree of the list. -/
def saveData (reps : List Rep) : Json :=
  Json.arr (reps.map encodeRep)

/-- First field with the given key, as JS property lookup on a parsed
object. -/
def lookupField (fields : List (String × Json)) (k : String) : Option Json :=
  (fields.find? (fun f => f.1 = k)).map (fun f => f.2)

/-- Read a JSON value as a number. -/
def asNum (j : Json) : Option ℚ :=
  match j with
  | Json.num q => some q
  | _ => none

/-- Read a JSON value as an integer (for the stored timestamp). -/
def asInt (j : Json) : Option ℤ :=
  match j with
  | Json.num q => if q.den = 1 then some q.num else none
  | _ => none

/-- Read a JSON value as a natural number (for the id). -/
def asNat (j : Json) : Option ℕ :=
  match j with
  | Json.num q => if q.den = 1 ∧ 0 ≤ q.num then some q.num.toNat else none
  | _ => none

/-- Parse one deal record. -/
def decodeDeal (j : Json) : Option Deal :=
  match j with
  | Json.obj fields =>
      match lookupField fields "date", lookupField fields "amount" with
      | some jd, some ja =>
          match asInt jd, asNum ja with
          | some d, some a => some { date := d, amount := a }
          | _, _ => none
      | _, _ => none
  | _ => none

/-- Parse a list of deal records. -/
def decodeDeals (l : List Json) : Option (List Deal) :=
  match l with
  | [] => some []
  | j :: rest =>
      match decodeDeal j, decodeDeals rest with
      | some d, some ds => some (d :: ds)
      | _, _ => none

/-- Parse one stored rep entry; `revenue` and `dealHistory` are allowed
to be absent (legacy shape). -/
def decodeRawRep (j : Json) : Option RawRep :=
  match j with
  | Json.obj fields =>
      match lookupField fields "id", lookupField fields "name", lookupField fields "deals" with
      | some ji, some (Json.str name), some jd =>
          match asNat ji, asNum jd with
          | some id, some deals =>
              let rev : Option (Option ℚ) :=
                match lookupField fields "revenue" with
                | none => some none
                | some jr => (asNum jr).map some
              let hist : Option (Option (List Deal)) :=
                match lookupField fields "dealHistory" with
                | none => some none
                | some (Json.arr l) => (decodeDeals l).map some
                | some _ => none
              match rev, hist with
              | some r, some h =>
                  some { id := id, name := name, deals := deals, revenue := r, dealHistory := h }
              | _, _ => none
          | _, _ => none
      | _, _, _ => none
  | _ => none

/-- Parse the stored blob as a list of rep entries. -/
def decodeRawReps (l : List Json) : Option (List RawRep) :=
  match l with
  | [] => some []
  | j :: rest =>
      match decodeRawRep j, decodeRawReps rest with
      | some r, some rs => some (r :: rs)
      | _, _ => none

/-- The load-and-migrate path at the top of app.js (lines 28-52): no
stored blob gives the empty list, a parse failure is caught and gives
the empty list, and a parsed list is mapped through `migrateRep`. -/
def loadReps (stored : Option Json) : List RawRep :=
  match stored with
  | none => []
  | some j =>
      match j with
      | Json.arr l =>
          match decodeRawReps l with
          | some reps => reps.map migrateRep
          | none => []
      | _ => []

/-- Demonstration state for the top-performer tie rule: three reps
whose filtered revenues under the `all` filter are 50, 200, 200 (the
second and third tied for the maximum). -/
def tieState : AppState :=
  ⟨[{ id := 1, name := "A", deals := 1, revenue := 50,
      dealHistory := [{ date := 0, amount := 50 }] },
    { id := 2, name := "B", deals := 1, revenue := 200,
      dealHistory := [{ date := 0, amount := 200 }] },
    { id := 3, name := "C", deals := 1, revenue := 200,
      dealHistory := [{ date := 0, amount := 200 }] }], "all", none, none⟩

/-! ## Sanity evaluations of the embedded operations -/

example :
    (addRep ⟨[], "all", none, none⟩ "  Alice " 5).salesReps
      = [newRep 5 "Alice"] := by decide

example :
    (addRep ⟨[newRep 5 "Alice"], "all", none, none⟩ "alice" 6).salesReps
      = [newRep 5 "Alice"] := by decide

example : coerceDealValue "abc" = 0 := by decide

example : coerceDealValue "" = 0 := by decide

example : coerceDealValue "-50" = -50 := by
  have h : lexFloat ['-', '5', '0'] = some ⟨true, ['5', '0'], []⟩ := by decide
  have h2 : digitsToNat ['5', '0'] = 50 := by decide
  simp [coerceDealValue, parseFloatSimple, h, floatVal, h2, digitsToNat]

example : coerceDealValue "3.5" = 7 / 2 := by
  have h : lexFloat ['3', '.', '5'] = some ⟨false, ['3'], ['5']⟩ := by decide
  have h2 : digitsToNat ['3'] = 3 := by decide
  have h3 : digitsToNat ['5'] = 5 := by decide
  simp [coerceDealValue, parseFloatSimple, h, floatVal, h2, h3]
  norm_num

/-! ## The deals-count / revenue-sum invariant (C1) -/

/-- The Domain Model invariant of the spec for one representative: the
`deals` counter is the history length and `revenue` is the sum of the
history amounts. -/
def goodRep (rep : Rep) : Prop :=
  rep.deals = rep.dealHistory.length ∧ rep.revenue = sumAmounts rep.dealHistory

lemma sumAmounts_append (l : List Deal) (d : Deal) :
    sumAmounts (l ++ [d]) = sumAmounts l + d.amount := by
  simp [sumAmounts, List.foldl_append]

lemma goodRep_dealMut (rep : Rep) (v : ℚ) (now : ℤ) (h : goodRep rep) :
    goodRep (dealMut rep v now) := by
  obtain ⟨hd, hr⟩ := h
  constructor
  · simp [dealMut, hd]
  · simp [dealMut, hr, sumAmounts_append]

lemma goodRep_foldl (ops : List (ℚ × ℤ)) (rep : Rep) (h : goodRep rep) :
    goodRep (ops.foldl (fun r p => dealMut r p.1 p.2) rep) := by
  induction ops generalizing rep with
  | nil => exact h
  | cons p rest ih => exact ih _ (goodRep_dealMut _ _ _ h)

/-- C1: a representative freshly created by `addRep` satisfies the
count/revenue invariant, and every sequence of `addDeal` mutations — the
per-rep effect of `recordDeal`, each applying `dealMut` with the coerced
amount and the current timestamp — preserves it, so it holds after each
mutation. -/
theorem recordDeal_invariant (newId : ℕ) (name : String) (ops : List (ℚ × ℤ)) :
    goodRep (ops.foldl (fun rep p => dealMut rep p.1 p.2) (newRep newId name)) := by
  refine goodRep_foldl ops _ ⟨rfl, rfl⟩

/-! ## Legacy migration on load (C6) -/

/-- C6: when the stored blob parses, `loadReps` maps every entry through
`migrateRep`; an entry lacking the `dealHistory` field is migrated by
setting `revenue` to 0 and `dealHistory` to the empty list, preserving
every other field (the `deals` count included), and an entry that has a
`dealHistory` field is returned unchanged. -/
theorem load_migration (stored : List Json) (l : List RawRep)
    (h : decodeRawReps stored = some l) :
    loadReps (some (Json.arr stored)) = l.map migrateRep ∧
    ∀ e ∈ l,
      (e.dealHistory = none →
        migrateRep e = { e with revenue := some 0, dealHistory := some [] } ∧
        (migrateRep e).id = e.id ∧ (migrateRep e).name = e.name ∧
        (migrateRep e).deals = e.deals) ∧
      (∀ hist, e.dealHistory = some hist → migrateRep e = e) := by
  refine ⟨by simp [loadReps, h], ?_⟩
  intro e _
  constructor
  · intro hnone
    refine ⟨?_, ?_, ?_, ?_⟩ <;> simp [migrateRep, hnone]
  · intro hist hsome
    simp [migrateRep, hsome]

/-- Witness for C6 at the example given in the spec: the legacy record
`{id:1, name:"Bob", deals:3}` parses and migrates to
`{..., revenue:0, dealHistory:[]}`. -/
theorem load_migration_witness :
    decodeRawReps [Json.obj [("id", Json.num 1), ("name", Json.str "Bob"), ("deals", Json.num 3)]]
        = some [{ id := 1, name := "Bob", deals := 3, revenue := none, dealHistory := none }] ∧
    loadReps (some (Json.arr
        [Json.obj [("id", Json.num 1), ("name", Json.str "Bob"), ("deals", Json.num 3)]]))
      = [{ id := 1, name := "Bob", deals := 3, revenue := none, dealHistory := none }].map migrateRep := by
  have h : decodeRawReps
      [Json.obj [("id", Json.num 1), ("name", Json.str "Bob"), ("deals", Json.num 3)]]
      = some [{ id := 1, name := "Bob", deals := 3, revenue := none, dealHistory := none }] := by
    simp [decodeRawReps, decodeRawRep, lookupField, asNat, asNum]
  exact ⟨h, (load_migration _ _ h).1⟩

/-! ## dealsToday ignores the filter state (C9) -/

lemma dealsToday_inner_foldl (now : ℤ) (l : List Deal) (acc : ℕ) :
    l.foldl (fun a deal => if dayStart deal.date = dayStart now then a + 1 else a) acc
      = acc + (l.filter (fun deal => dayStart deal.date = dayStart now)).length := by
  induction l generalizing acc with
  | nil => simp
  | cons d rest ih =>
      by_cases h : dayStart d.date = dayStart now
      · simp [List.filter_cons, h, ih]
        omega
      · simp [List.filter_cons, h, ih]

lemma dealsToday_outer_foldl (reps : List Rep) (now : ℤ) (acc : ℕ) :
    reps.foldl
        (fun acc rep =>
          rep.dealHistory.foldl
            (fun a deal => if dayStart deal.date = dayStart now then a + 1 else a) acc)
        acc
      = acc + (reps.map (fun rep =>
          (rep.dealHistory.filter (fun deal => dayStart deal.date = dayStart now)).length)).sum := by
  induction reps generalizing acc with
  | nil => simp
  | cons r rest ih =>
      rw [List.foldl_cons, ih, dealsToday_inner_foldl, List.map_cons, List.sum_cons]
      omega

/-- C9: `dealsToday` is independent of the filter state — two states
with the same rep list but any two filter selectors and custom ranges
give the same count — and that count is the number of deals across all
reps whose timestamp falls on the current (local) calendar day. -/
theorem dealsToday_filter_independent (reps : List Rep) (f1 f2 : String)
    (cs1 ce1 cs2 ce2 : Option ℤ) (now : ℤ) :
    dealsToday ⟨reps, f1, cs1, ce1⟩ now = dealsToday ⟨reps, f2, cs2, ce2⟩ now ∧
    dealsToday ⟨reps, f1, cs1, ce1⟩ now
      = (reps.map (fun rep =>
          (rep.dealHistory.filter (fun deal => dayStart deal.date = dayStart now)).length)).sum := by
  refine ⟨rfl, ?_⟩
  simpa using dealsToday_outer_foldl reps now 0

/-! ## Serialization round trip (C7) -/

lemma decodeDeal_encodeDeal (d : Deal) : decodeDeal (encodeDeal d) = some d := by
  simp [decodeDeal, encodeDeal, lookupField, asInt, asNum]

lemma decodeDeals_encode (l : List Deal) :
    decodeDeals (l.map encodeDeal) = some l := by
  induction l with
  | nil => rfl
  | cons d rest ih => simp [decodeDeals, decodeDeal_encodeDeal, ih]

lemma decodeRawRep_encodeRep (rep : Rep) :
    decodeRawRep (encodeRep rep) = some (embedRep rep) := by
  simp [decodeRawRep, encodeRep, lookupField, asNat, asNum, decodeDeals_encode, embedRep]

lemma decodeRawReps_encode (reps : List Rep) :
    decodeRawReps (reps.map encodeRep) = some (reps.map embedRep) := by
  induction reps with
  | nil => rfl
  | cons r rest ih => simp [decodeRawReps, decodeRawRep_encodeRep, ih]

lemma migrateRep_embedRep (rep : Rep) : migrateRep (embedRep rep) = embedRep rep := by
  simp [migrateRep, embedRep]

/-- C7: saving a well-formed representative list (current shape, with a
`dealHistory` field on every entry, which the type `Rep` expresses) and
loading it back yields the original list — entry by entry the parsed,
migrated record is the saved one. -/
theorem save_load_roundtrip (reps : List Rep) :
    loadReps (some (saveData reps)) = reps.map embedRep := by
  simp [loadReps, saveData, decodeRawReps_encode, List.map_map, Function.comp,
    migrateRep_embedRep]

/-! ## addRepresentative validation (C5) -/

/-- C5: on a list whose stored names are already trimmed (as `addRep`
itself guarantees, trimming before storage), `addRep` leaves the list
unchanged exactly when the trimmed input is empty or a rep with a
case-insensitively equal trimmed name already exists; otherwise it
appends exactly one fresh rep with zero deals, zero revenue and empty
history. -/
theorem addRep_spec (s : AppState) (input : String) (newId : ℕ)
    (htrim : ∀ rep ∈ s.salesReps, jsTrim rep.name = rep.name) :
    ((addRep s input newId).salesReps = s.salesReps ↔
      jsTrim input = "" ∨
        ∃ rep ∈ s.salesReps, jsToLower (jsTrim rep.name) = jsToLower (jsTrim input)) ∧
    (¬(jsTrim input = "" ∨
        ∃ rep ∈ s.salesReps, jsToLower (jsTrim rep.name) = jsToLower (jsTrim input)) →
      (addRep s input newId).salesReps = s.salesReps ++ [newRep newId (jsTrim input)]) ∧
    (newRep newId (jsTrim input)).deals = 0 ∧
    (newRep newId (jsTrim input)).revenue = 0 ∧
    (newRep newId (jsTrim input)).dealHistory = [] := by
  have hnames : ∀ rep ∈ s.salesReps,
      jsToLower (jsTrim rep.name) = jsToLower rep.name := by
    intro rep hr
    rw [htrim rep hr]
  by_cases hempty : jsTrim input = ""
  · refine ⟨?_, ?_, rfl, rfl, rfl⟩
    · simp [addRep, hempty]
    · intro hno
      exact absurd (Or.inl hempty) hno
  · by_cases hdup :
        s.salesReps.any (fun rep => jsToLower rep.name = jsToLower (jsTrim input)) = true
    · have hex : ∃ rep ∈ s.salesReps,
          jsToLower (jsTrim rep.name) = jsToLower (jsTrim input) := by
        obtain ⟨rep, hr, hre⟩ := List.any_eq_true.mp hdup
        exact ⟨rep, hr, by rw [hnames rep hr]; exact of_decide_eq_true hre⟩
      refine ⟨?_, ?_, rfl, rfl, rfl⟩
      · have hsame : (addRep s input newId).salesReps = s.salesReps := by
          simp [addRep, hempty, hdup]
        exact iff_of_true hsame (Or.inr hex)
      · intro hno
        exact absurd (Or.inr hex) hno
    · have hnodup : ¬∃ rep ∈ s.salesReps,
          jsToLower (jsTrim rep.name) = jsToLower (jsTrim input) := by
        intro ⟨rep, hr, hre⟩
        apply absurd _ (fun hc => hdup hc)
        exact List.any_eq_true.mpr ⟨rep, hr, decide_eq_true (by rw [← hnames rep hr]; exact hre)⟩
      have happ : (addRep s input newId).salesReps
          = s.salesReps ++ [newRep newId (jsTrim input)] := by
        simp only [addRep, hempty, if_false]
        rw [if_neg (by simp [hdup])]
      refine ⟨?_, fun _ => happ, rfl, rfl, rfl⟩
      rw [happ]
      constructor
      · intro heq
        exact absurd (congrArg List.length heq).symm (by simp)
      · intro hor
        exact absurd hor (fun hor => hor.elim hempty hnodup)

/-- Witness for C5: one rep named "Alice" (trimmed), adding "alice";
the duplicate check fires and the list is unchanged. -/
theorem addRep_spec_witness :
    (∀ rep ∈ (⟨[newRep 5 "Alice"], "all", none, none⟩ : AppState).salesReps,
        jsTrim rep.name = rep.name) ∧
    ((addRep ⟨[newRep 5 "Alice"], "all", none, none⟩ "alice" 6).salesReps
        = [newRep 5 "Alice"] ↔
      jsTrim "alice" = "" ∨
        ∃ rep ∈ [newRep 5 "Alice"],
          jsToLower (jsTrim rep.name) = jsToLower (jsTrim "alice")) :=
  ⟨by decide, (addRep_spec ⟨[newRep 5 "Alice"], "all", none, none⟩ "alice" 6 (by decide)).1⟩

/-! ## recordDeal frame conditions (C10) -/

lemma addDealReps_length (reps : List Rep) (id : ℕ) (v : ℚ) (now : ℤ) :
    (addDealReps reps id v now).length = reps.length := by
  induction reps with
  | nil => rfl
  | cons r rest ih =>
      by_cases h : r.id = id <;> simp [addDealReps, h, ih]

lemma addDealReps_no_match (reps : List Rep) (id : ℕ) (v : ℚ) (now : ℤ)
    (h : ∀ rep ∈ reps, rep.id ≠ id) :
    addDealReps reps id v now = reps := by
  induction reps with
  | nil => rfl
  | cons r rest ih =>
      have hr : ¬r.id = id := h r (by simp)
      simp [addDealReps, hr, ih (fun x hx => h x (by simp [hx]))]

lemma addDealReps_getElem (reps : List Rep) (id : ℕ) (v : ℚ) (now : ℤ) :
    ∀ i : ℕ,
      (addDealReps reps id v now)[i]? = reps[i]? ∨
      ∃ rep, reps[i]? = some rep ∧ rep.id = id ∧
        (addDealReps reps id v now)[i]? = some (dealMut rep v now) := by
  induction reps with
  | nil => intro i; left; rfl
  | cons r rest ih =>
      intro i
      by_cases h : r.id = id
      · match i with
        | 0 => right; exact ⟨r, by simp, h, by simp [addDealReps, h]⟩
        | i + 1 => left; simp [addDealReps, h]
      · match i with
        | 0 => left; simp [addDealReps, h]
        | i + 1 =>
            rcases ih i with heq | ⟨rep, hrep, hid, heq⟩
            · left; simpa [addDealReps, h] using heq
            · right; exact ⟨rep, by simpa using hrep, hid, by simpa [addDealReps, h] using heq⟩

/-- C10: `addDeal` changes neither the filter state nor the length of
the list; if no rep has the requested id the state is untouched; and
position by position, each rep is either completely unchanged or is the
rep whose id is the requested one, mutated with id and name intact. -/
theorem recordDeal_frame (s : AppState) (id : ℕ) (p : Option String) (now : ℤ) :
    (addDeal s id p now).currentFilter = s.currentFilter ∧
    (addDeal s id p now).customStartDate = s.customStartDate ∧
    (addDeal s id p now).customEndDate = s.customEndDate ∧
    ((∀ rep ∈ s.salesReps, rep.id ≠ id) → addDeal s id p now = s) ∧
    (addDeal s id p now).salesReps.length = s.salesReps.length ∧
    ∀ i : ℕ,
      (addDeal s id p now).salesReps[i]? = s.salesReps[i]? ∨
      ∃ rep rep', s.salesReps[i]? = some rep ∧
        (addDeal s id p now).salesReps[i]? = some rep' ∧
        rep.id = id ∧ rep'.id = rep.id ∧ rep'.name = rep.name := by
  by_cases hfound : s.salesReps.any (fun rep => rep.id = id) = true
  · match p with
    | none =>
        refine ⟨by simp [addDeal, hfound], by simp [addDeal, hfound],
          by simp [addDeal, hfound], fun _ => by simp [addDeal, hfound],
          by simp [addDeal, hfound], ?_⟩
        intro i
        left
        simp [addDeal, hfound]
    | some dealValue =>
        have hreps : (addDeal s id (some dealValue) now).salesReps
            = addDealReps s.salesReps id (coerceDealValue dealValue) now := by
          simp [addDeal, hfound]
        refine ⟨by simp [addDeal, hfound], by simp [addDeal, hfound],
          by simp [addDeal, hfound], ?_, ?_, ?_⟩
        · intro hno
          obtain ⟨rep, hr, hre⟩ := List.any_eq_true.mp hfound
          exact absurd (of_decide_eq_true hre) (hno rep hr)
        · rw [hreps]; exact addDealReps_length _ _ _ _
        · intro i
          rw [hreps]
          rcases addDealReps_getElem s.salesReps id (coerceDealValue dealValue) now i with
            heq | ⟨rep, hrep, hid, heq⟩
          · left; exact heq
          · right
            exact ⟨rep, dealMut rep (coerceDealValue dealValue) now, hrep, heq, hid, rfl, rfl⟩
  · have hs : addDeal s id p now = s := by simp [addDeal, hfound]
    refine ⟨by rw [hs], by rw [hs], by rw [hs], fun _ => hs, by rw [hs], ?_⟩
    intro i
    left
    rw [hs]

/-- Witness for C10: a two-rep state, recording a deal on id 1 with
amount 7; the untouched rep at index 1 is returned unchanged. -/
theorem recordDeal_frame_witness :
    ((∀ rep ∈ (⟨[newRep 1 "Ann", newRep 2 "Bob"], "all", none, none⟩ : AppState).salesReps,
        rep.id ≠ 3) →
      addDeal ⟨[newRep 1 "Ann", newRep 2 "Bob"], "all", none, none⟩ 3 (some "7") 0
        = ⟨[newRep 1 "Ann", newRep 2 "Bob"], "all", none, none⟩) ∧
    (addDeal ⟨[newRep 1 "Ann", newRep 2 "Bob"], "all", none, none⟩ 3 (some "7") 0).currentFilter
      = "all" :=
  ⟨(recordDeal_frame ⟨[newRep 1 "Ann", newRep 2 "Bob"], "all", none, none⟩ 3 (some "7") 0).2.2.2.1,
   (recordDeal_frame ⟨[newRep 1 "Ann", newRep 2 "Bob"], "all", none, none⟩ 3 (some "7") 0).1⟩

/-! ## The week filter window (C4) -/

/-- C4 counterexample: with `now = 0`, a deal dated one day *after*
`now` is returned by the `week` filter — the code only checks the lower
bound `now − 7×24h`, so deals later than `now` are not excluded, against
the closed window through `now` stated by the claim. -/
theorem week_filter_counterexample :
    getFilteredDeals ⟨[], "week", none, none⟩ 0
        { id := 1, name := "Ann", deals := 1, revenue := 100,
          dealHistory := [{ date := 86400000, amount := 100 }] }
      = [{ date := 86400000, amount := 100 }] ∧
    ¬((86400000 : ℤ) ≤ 0) := by
  constructor
  · simp +decide [getFilteredDeals]
  · decide

/-- C4 amended: the `week` filter returns exactly the deals whose
timestamp is at least `now − 7×24h`, with no upper bound — a deal dated
later than `now` is also included. -/
theorem week_filter_membership (s : AppState) (now : ℤ) (rep : Rep)
    (h : s.currentFilter = "week") :
    getFilteredDeals s now rep
      = rep.dealHistory.filter (fun deal => now - 7 * 24 * 60 * 60 * 1000 ≤ deal.date) ∧
    ∀ deal, deal ∈ getFilteredDeals s now rep ↔
      deal ∈ rep.dealHistory ∧ now - 7 * 24 * 60 * 60 * 1000 ≤ deal.date := by
  have hfd : getFilteredDeals s now rep
      = rep.dealHistory.filter (fun deal => now - 7 * 24 * 60 * 60 * 1000 ≤ deal.date) := by
    simp [getFilteredDeals, h]
  refine ⟨hfd, fun deal => ?_⟩
  rw [hfd]
  simp [List.mem_filter]

/-- Witness for C4 at the example given in the spec: deals at `T−8days`,
`T−2days`, `T` with `T = 0`; the deal at `T−2days` is in the week
window, and the deal at `T−8days` is not. -/
theorem week_filter_witness :
    (⟨[], "week", none, none⟩ : AppState).currentFilter = "week" ∧
    (({ date := -172800000, amount := 200 } : Deal) ∈
        getFilteredDeals ⟨[], "week", none, none⟩ 0
          { id := 1, name := "Ann", deals := 3, revenue := 600,
            dealHistory := [{ date := -691200000, amount := 100 },
              { date := -172800000, amount := 200 }, { date := 0, amount := 300 }] } ↔
      ({ date := -172800000, amount := 200 } : Deal) ∈
          [({ date := -691200000, amount := 100 } : Deal),
            { date := -172800000, amount := 200 }, { date := 0, amount := 300 }] ∧
        (0 : ℤ) - 7 * 24 * 60 * 60 * 1000 ≤ -172800000) :=
  ⟨rfl,
    (week_filter_membership ⟨[], "week", none, none⟩ 0
        { id := 1, name := "Ann", deals := 3, revenue := 600,
          dealHistory := [{ date := -691200000, amount := 100 },
            { date := -172800000, amount := 200 }, { date := 0, amount := 300 }] }
        rfl).2
      { date := -172800000, amount := 200 }⟩

/-! ## Switching to the custom filter with missing dates (C3) -/

/-- C3 counterexample: prior filter `week`, one deal 8 days old, `now =
0`.  The change event to `custom` sets the selector immediately; with
no custom dates chosen, filtering then returns the *full history* (the
8-day-old deal reappears), while the prior `week` window had excluded
it — the selector change is not rejected and the prior filter does not
stay in effect. -/
theorem custom_filter_counterexample :
    (dateFilterChange
        ⟨[{ id := 1, name := "Ann", deals := 1, revenue := 100,
            dealHistory := [{ date := -691200000, amount := 100 }] }], "week", none, none⟩
        "custom").currentFilter = "custom" ∧
    getFilteredDeals
        (dateFilterChange
          ⟨[{ id := 1, name := "Ann", deals := 1, revenue := 100,
              dealHistory := [{ date := -691200000, amount := 100 }] }], "week", none, none⟩
          "custom") 0
        { id := 1, name := "Ann", deals := 1, revenue := 100,
          dealHistory := [{ date := -691200000, amount := 100 }] }
      = [{ date := -691200000, amount := 100 }] ∧
    getFilteredDeals
        ⟨[{ id := 1, name := "Ann", deals := 1, revenue := 100,
            dealHistory := [{ date := -691200000, amount := 100 }] }], "week", none, none⟩ 0
        { id := 1, name := "Ann", deals := 1, revenue := 100,
          dealHistory := [{ date := -691200000, amount := 100 }] }
      = [] := by
  refine ⟨rfl, ?_, ?_⟩
  · simp +decide [getFilteredDeals, dateFilterChange]
  · simp +decide [getFilteredDeals]

/-- C3 amended: the selector change always takes effect immediately
(`currentFilter` is assigned before any validation; only applying a
custom *range* is rejected on a missing date), and filtering with
selector `custom` and a missing start or end date falls back to the
entire history — not to the prior window. -/
theorem custom_filter_behavior (s : AppState) (v : String) (now : ℤ) (rep : Rep) :
    (dateFilterChange s v).currentFilter = v ∧
    (s.currentFilter = "custom" →
      (s.customStartDate = none ∨ s.customEndDate = none) →
      getFilteredDeals s now rep = rep.dealHistory) := by
  refine ⟨rfl, ?_⟩
  intro h1 h2
  rcases h2 with h2 | h2
  · cases hce : s.customEndDate <;> simp [getFilteredDeals, h1, h2, hce]
  · cases hcs : s.customStartDate <;> simp [getFilteredDeals, h1, h2, hcs]

/-- Witness for the amended C3 at a concrete state: selector
`custom`, start date missing. -/
theorem custom_filter_behavior_witness :
    (dateFilterChange
        (⟨[], "custom", none, some 86400000⟩ : AppState) "week").currentFilter = "week" ∧
    getFilteredDeals (⟨[], "custom", none, some 86400000⟩ : AppState) 0
        { id := 1, name := "Ann", deals := 1, revenue := 100,
          dealHistory := [{ date := -691200000, amount := 100 }] }
      = [{ date := -691200000, amount := 100 }] :=
  ⟨(custom_filter_behavior ⟨[], "custom", none, some 86400000⟩ "week" 0
      { id := 1, name := "Ann", deals := 1, revenue := 100,
        dealHistory := [{ date := -691200000, amount := 100 }] }).1,
   (custom_filter_behavior ⟨[], "custom", none, some 86400000⟩ "week" 0
      { id := 1, name := "Ann", deals := 1, revenue := 100,
        dealHistory := [{ date := -691200000, amount := 100 }] }).2 rfl (Or.inl rfl)⟩

/-! ## Deal amount coercion (C2) -/

/-- C2 counterexample: typing `-50` into the deal prompt.
`parseFloat("-50") = -50` is truthy, so `parseFloat(dealValue) || 0`
keeps it, and the recorded deal has a *negative* amount — the claim
that every recorded amount is non-negative is false. -/
theorem negative_amount_counterexample :
    (addDeal ⟨[newRep 1 "Ann"], "all", none, none⟩ 1 (some "-50") 0).salesReps
      = [{ id := 1, name := "Ann", deals := 1, revenue := -50,
           dealHistory := [{ date := 0, amount := -50 }] }] ∧
    ((-50 : ℚ) < 0) := by
  have h : lexFloat ['-', '5', '0'] = some ⟨true, ['5', '0'], []⟩ := by decide
  have h2 : digitsToNat ['5', '0'] = 50 := by decide
  have hc : coerceDealValue "-50" = -50 := by
    simp [coerceDealValue, parseFloatSimple, h, floatVal, h2, digitsToNat]
  constructor
  · simp +decide [addDeal, addDealReps, dealMut, newRep, hc, sumAmounts]
  · norm_num

lemma addDealReps_first_match (reps : List Rep) (id : ℕ) (v : ℚ) (now : ℤ)
    (h : reps.any (fun rep => rep.id = id) = true) :
    ∃ l1 rep l2, reps = l1 ++ rep :: l2 ∧ rep.id = id ∧ (∀ x ∈ l1, x.id ≠ id) ∧
      addDealReps reps id v now = l1 ++ dealMut rep v now :: l2 := by
  induction reps with
  | nil => simp at h
  | cons r rest ih =>
      by_cases hr : r.id = id
      · exact ⟨[], r, rest, rfl, hr, by simp, by simp [addDealReps, hr]⟩
      · have h2 : rest.any (fun rep => rep.id = id) = true := by
          simpa [hr] using h
        obtain ⟨l1, rep, l2, he, hid, hno, hres⟩ := ih h2
        refine ⟨r :: l1, rep, l2, by simp [he], hid, ?_, by simp [addDealReps, hr, hres]⟩
        intro x hx
        rcases List.mem_cons.mp hx with hx | hx
        · rw [hx]
          exact hr
        · exact hno x hx

/-- C2 amended: `recordDeal` never rejects the prompt input — on an
existing rep, with a non-cancelled prompt, it always appends exactly one
deal record whose amount is `parseFloat(input) || 0`: zero when the
input is non-numeric (NaN) or parses to zero, and otherwise the parsed
value unchanged, which is negative for a negative numeric input. -/
theorem recordDeal_coercion (s : AppState) (id : ℕ) (inp : String) (now : ℤ)
    (h : s.salesReps.any (fun rep => rep.id = id) = true) :
    (parseFloatSimple inp = none → coerceDealValue inp = 0) ∧
    (∀ v, parseFloatSimple inp = some v → v ≠ 0 → coerceDealValue inp = v) ∧
    ∃ l1 rep l2, s.salesReps = l1 ++ rep :: l2 ∧ rep.id = id ∧ (∀ x ∈ l1, x.id ≠ id) ∧
      (addDeal s id (some inp) now).salesReps
        = l1 ++ dealMut rep (coerceDealValue inp) now :: l2 ∧
      (dealMut rep (coerceDealValue inp) now).dealHistory
        = rep.dealHistory ++ [{ date := now, amount := coerceDealValue inp }] := by
  refine ⟨?_, ?_, ?_⟩
  · intro hn
    simp [coerceDealValue, hn]
  · intro v hv hnz
    simp [coerceDealValue, hv, hnz]
  · obtain ⟨l1, rep, l2, he, hid, hno, hres⟩ :=
      addDealReps_first_match s.salesReps id (coerceDealValue inp) now h
    exact ⟨l1, rep, l2, he, hid, hno, by simp [addDeal, h, hres], rfl⟩

/-- Witness for the amended C2: one rep with id 1, prompt input the
non-numeric string `"abc"`, which parses to NaN and is coerced to 0. -/
theorem recordDeal_coercion_witness :
    ((⟨[newRep 1 "Ann"], "all", none, none⟩ : AppState).salesReps.any
        (fun rep => rep.id = 1) = true) ∧
    (parseFloatSimple "abc" = none → coerceDealValue "abc" = 0) ∧
    parseFloatSimple "abc" = none :=
  ⟨by decide,
   (recordDeal_coercion ⟨[newRep 1 "Ann"], "all", none, none⟩ 1 "abc" 0 (by decide)).1,
   by decide⟩

/-! ## topPerformer is the first-encountered maximum (C8) -/

lemma foldl_argmax_split (f : Rep → ℚ) (l : List Rep) :
    ∀ acc : Rep,
      f acc ≤ f (l.foldl (fun top rep => if f top < f rep then rep else top) acc) ∧
      ∃ l1 l2,
        acc :: l
          = l1 ++ (l.foldl (fun top rep => if f top < f rep then rep else top) acc) :: l2 ∧
        (∀ x ∈ l1, f x < f (l.foldl (fun top rep => if f top < f rep then rep else top) acc)) ∧
        (∀ x ∈ l2, f x ≤ f (l.foldl (fun top rep => if f top < f rep then rep else top) acc)) := by
  induction l with
  | nil =>
      intro acc
      exact ⟨le_refl _, [], [], rfl, by simp, by simp⟩
  | cons x xs ih =>
      intro acc
      rw [List.foldl_cons]
      by_cases hx : f acc < f x
      · rw [if_pos hx]
        obtain ⟨hle, l1, l2, hsplit, hlt, hge⟩ := ih x
        refine ⟨le_of_lt (lt_of_lt_of_le hx hle), acc :: l1, l2, by simp [← hsplit], ?_, hge⟩
        intro y hy
        rcases List.mem_cons.mp hy with hy | hy
        · rw [hy]
          exact lt_of_lt_of_le hx hle
        · exact hlt y hy
      · rw [if_neg hx]
        obtain ⟨hle, l1, l2, hsplit, hlt, hge⟩ := ih acc
        refine ⟨hle, ?_⟩
        cases l1 with
        | nil =>
            rw [List.nil_append] at hsplit
            obtain ⟨hacc, hxs⟩ := List.cons_eq_cons.mp hsplit
            refine ⟨[], x :: l2, ?_, by simp, ?_⟩
            · rw [List.nil_append, ← hacc, hxs]
            · intro y hy
              rcases List.mem_cons.mp hy with hy | hy
              · rw [hy, ← hacc]
                exact le_of_not_lt hx
              · exact hge y hy
        | cons a t =>
            rw [List.cons_append] at hsplit
            obtain ⟨hacc, hxs⟩ := List.cons_eq_cons.mp hsplit
            have hacc_lt :
                f acc < f (xs.foldl (fun top rep => if f top < f rep then rep else top) acc) := by
              have := hlt a (by simp)
              rwa [← hacc] at this
            refine ⟨acc :: x :: t, l2, ?_, ?_, hge⟩
            · conv_lhs => rw [hxs]
              rfl
            · intro y hy
              rcases List.mem_cons.mp hy with hy | hy
              · rw [hy]
                exact hacc_lt
              · rcases List.mem_cons.mp hy with hy | hy
                · rw [hy]
                  exact lt_of_le_of_lt (le_of_not_lt hx) hacc_lt
                · exact hlt y (by simp [hy])

/-- C8: `topPerformer` of the empty list is `none`; of a non-empty list
it is a rep of maximal filtered revenue, and the list splits as
`l1 ++ best :: l2` where everything before `best` has strictly smaller
filtered revenue (so `best` is the first-encountered maximum of the
left-to-right reduction) and everything after has at most its revenue. -/
theorem topPerformer_first_max (s : AppState) (now : ℤ) :
    (s.salesReps = [] → topPerformer s now = none) ∧
    (s.salesReps ≠ [] →
      ∃ best l1 l2, topPerformer s now = some best ∧
        s.salesReps = l1 ++ best :: l2 ∧
        (∀ rep ∈ s.salesReps,
          (getFilteredStats s now rep).revenue ≤ (getFilteredStats s now best).revenue) ∧
        (∀ rep ∈ l1,
          (getFilteredStats s now rep).revenue < (getFilteredStats s now best).revenue) ∧
        (∀ rep ∈ l2,
          (getFilteredStats s now rep).revenue ≤ (getFilteredStats s now best).revenue)) := by
  constructor
  · intro h
    simp [topPerformer, h]
  · intro h
    cases hreps : s.salesReps with
    | nil => exact absurd hreps h
    | cons first rest =>
        obtain ⟨hle, l1, l2, hsplit, hlt, hge⟩ :=
          foldl_argmax_split (fun rep => (getFilteredStats s now rep).revenue) rest first
        refine ⟨rest.foldl
            (fun top rep =>
              if (getFilteredStats s now top).revenue < (getFilteredStats s now rep).revenue
              then rep else top) first, l1, l2, ?_, ?_, ?_, hlt, hge⟩
        · simp [topPerformer, hreps]
        · exact hsplit
        · intro rep hrep
          rw [hsplit] at hrep
          rcases List.mem_append.mp hrep with hrep | hrep
          · exact le_of_lt (hlt rep hrep)
          · rcases List.mem_cons.mp hrep with hrep | hrep
            · subst hrep
              exact le_refl _
            · exact hge rep hrep

/-- Witness for C8 at the tie example given in the spec: filtered revenues
[50, 200, 200]; the non-emptiness hypothesis is discharged at
`tieState`. -/
theorem topPerformer_first_max_witness :
    tieState.salesReps ≠ [] ∧
    (∃ best l1 l2, topPerformer tieState 0 = some best ∧
      tieState.salesReps = l1 ++ best :: l2 ∧
      (∀ rep ∈ tieState.salesReps,
        (getFilteredStats tieState 0 rep).revenue
          ≤ (getFilteredStats tieState 0 best).revenue) ∧
      (∀ rep ∈ l1,
        (getFilteredStats tieState 0 rep).revenue
          < (getFilteredStats tieState 0 best).revenue) ∧
      (∀ rep ∈ l2,
        (getFilteredStats tieState 0 rep).revenue
          ≤ (getFilteredStats tieState 0 best).revenue)) :=
  ⟨by simp [tieState], (topPerformer_first_max tieState 0).2 (by simp [tieState])⟩


end SalesTracker
